import Mathlib

/-!
Verification development for the command-orchestration layer of an
image-management CLI (organize / duplicates commands).

The Rust sources are shallowly embedded: paths are strings, the filesystem
and the external image-processing engine are abstracted into an explicit
environment record, and the side-effecting command pipeline is modelled as
a pure function that returns its result together with the ordered list of
effects it performed.  Rust `f32` similarity thresholds are modelled as
rationals (their order behaviour on the values the code compares is exact).
-/

/-! ### Rust path-name primitives

`Path::file_stem`, `Path::extension` and `Path::with_extension` operate on
the file-name component only; we model a file name as a `String` and follow
the Rust rules: the split is at the last `.` of the name, except that a name
whose only `.` is its first character has no extension. -/

/-- Splits a character list at its last `'.'`: returns `some (before, after)`
where `before ++ '.' :: after` is the input, or `none` if no dot occurs. -/
def splitLastDot : List Char → Option (List Char × List Char)
  | [] => none
  | c :: cs =>
    match splitLastDot cs with
    | some (s, e) => some (c :: s, e)
    | none => if c = '.' then some ([], cs) else none

/-- Rust `Path::extension` on a file name: the portion after the last `.`,
unless there is no `.` or the only `.` is the leading character. -/
def rust_extension (name : String) : Option String :=
  match splitLastDot name.data with
  | none => none
  | some ([], _) => none
  | some (_, e) => some ⟨e⟩

/-- Rust `Path::file_stem` on a file name: the portion before the last `.`,
or the whole name when there is no extension. -/
def rust_file_stem (name : String) : String :=
  match splitLastDot name.data with
  | none => name
  | some ([], _) => name
  | some (s, _) => ⟨s⟩

/-- Rust `Path::with_extension` on a file name: strips the name's current
extension (per `file_stem`) and, when `ext` is nonempty, appends `.ext`. -/
def rust_with_extension (name ext : String) : String :=
  if ext = "" then rust_file_stem name else rust_file_stem name ++ "." ++ ext

/-- Splits a character list at every separator satisfying `p`, keeping
empty segments — the semantics of Rust `str::split` (and of Lean's
`String.split`, re-implemented structurally so that it reduces). -/
def splitChars (p : Char → Bool) : List Char → List (List Char)
  | [] => [[]]
  | c :: cs =>
    if p c then [] :: splitChars p cs
    else
      match splitChars p cs with
      | [] => [[c]]
      | l :: ls => (c :: l) :: ls

/-- String segments of `s` split at separators satisfying `p`. -/
def splitString (s : String) (p : Char → Bool) : List String :=
  (splitChars p s.data).map (fun l => (⟨l⟩ : String))

/-- Rust `Path::file_name().unwrap_or_default()` for a file path string:
the last `/`-separated component; the degenerate cases where Rust yields
`None` (empty final component or `..`) are mapped to `""`. -/
def fileNameOf (p : String) : String :=
  let comps := (splitString p (fun c => c == '/')).filter (fun s => s ≠ "")
  match comps.getLast? with
  | none => ""
  | some c => if c = ".." then "" else c

/-! ### Decimal rendering of naturals

`format!("group_{}", i)` and `format!("{}_{}", stem, counter)` render a
natural in decimal; in Lean this is `Nat.repr`.  For the export-document
invariants we need that this rendering is injective and uses digit
characters only, which we prove via an equivalent structural recursion. -/

/-- Decimal digit characters of `n`, most significant first; agrees with
core's `Nat.toDigits 10`. -/
def decimalDigits (n : ℕ) : List Char :=
  if h : n < 10 then [Nat.digitChar n]
  else decimalDigits (n / 10) ++ [Nat.digitChar (n % 10)]
  decreasing_by exact Nat.div_lt_self (by omega) (by omega)

theorem decimalDigits_of_lt {n : ℕ} (h : n < 10) : decimalDigits n = [Nat.digitChar n] := by
  rw [decimalDigits]
  simp [h]

theorem decimalDigits_of_ge {n : ℕ} (h : ¬ n < 10) :
    decimalDigits n = decimalDigits (n / 10) ++ [Nat.digitChar (n % 10)] := by
  conv_lhs => rw [decimalDigits]
  simp [h]

theorem toDigitsCore_succ (b fuel n : ℕ) (ds : List Char) :
    Nat.toDigitsCore b (fuel + 1) n ds =
      if n / b = 0 then Nat.digitChar (n % b) :: ds
      else Nat.toDigitsCore b fuel (n / b) (Nat.digitChar (n % b) :: ds) := rfl

theorem toDigitsCore_eq_decimalDigits :
    ∀ (fuel n : ℕ) (ds : List Char), n < 10 ^ (fuel + 1) →
      Nat.toDigitsCore 10 (fuel + 1) n ds = decimalDigits n ++ ds := by
  intro fuel
  induction fuel with
  | zero =>
    intro n ds hn
    have hlt : n < 10 := by simpa using hn
    have h0 : n / 10 = 0 := Nat.div_eq_of_lt hlt
    have hm : n % 10 = n := Nat.mod_eq_of_lt hlt
    rw [toDigitsCore_succ, decimalDigits_of_lt hlt]
    simp [h0, hm]
  | succ f ih =>
    intro n ds hn
    rw [toDigitsCore_succ]
    by_cases h0 : n / 10 = 0
    · have hlt : n < 10 := by omega
      have hm : n % 10 = n := Nat.mod_eq_of_lt hlt
      rw [decimalDigits_of_lt hlt]
      simp [h0, hm]
    · have hge : 10 ≤ n := by omega
      have hdiv : n / 10 < 10 ^ (f + 1) := by
        rw [Nat.div_lt_iff_lt_mul (by omega)]
        calc n < 10 ^ (f + 2) := hn
        _ = 10 ^ (f + 1) * 10 := by ring
      rw [if_neg h0, ih (n / 10) (Nat.digitChar (n % 10) :: ds) hdiv,
        decimalDigits_of_ge (n := n) (by omega)]
      simp

theorem toDigits_eq_decimalDigits (n : ℕ) :
    Nat.toDigits 10 n = decimalDigits n := by
  have hn : n < 10 ^ (n + 1) := by
    calc n < 2 ^ n := Nat.lt_two_pow n
    _ ≤ 10 ^ n := Nat.pow_le_pow_left (by omega) n
    _ ≤ 10 ^ (n + 1) := Nat.pow_le_pow_right (by omega) (by omega)
  have := toDigitsCore_eq_decimalDigits n n [] hn
  simpa [Nat.toDigits] using this

theorem digitChar_inj_lt10 :
    ∀ a : ℕ, a < 10 → ∀ b : ℕ, b < 10 → Nat.digitChar a = Nat.digitChar b → a = b := by
  decide

theorem decimalDigits_ne_nil (n : ℕ) : decimalDigits n ≠ [] := by
  rw [decimalDigits]
  split <;> simp

theorem decimalDigits_injective : ∀ m n : ℕ, decimalDigits m = decimalDigits n → m = n := by
  intro m
  induction m using Nat.strong_induction_on with
  | _ m ih =>
    intro n h
    by_cases hm : m < 10 <;> by_cases hn : n < 10
    · rw [decimalDigits_of_lt hm, decimalDigits_of_lt hn] at h
      simp at h
      exact digitChar_inj_lt10 m hm n hn h
    · rw [decimalDigits_of_lt hm, decimalDigits_of_ge hn] at h
      obtain ⟨a, l, hE⟩ := List.exists_cons_of_ne_nil (decimalDigits_ne_nil (n / 10))
      rw [hE] at h
      simp at h
    · rw [decimalDigits_of_ge hm, decimalDigits_of_lt hn] at h
      obtain ⟨a, l, hE⟩ := List.exists_cons_of_ne_nil (decimalDigits_ne_nil (m / 10))
      rw [hE] at h
      simp at h
    · rw [decimalDigits_of_ge hm, decimalDigits_of_ge hn] at h
      have hlen : (decimalDigits (m / 10)).length = (decimalDigits (n / 10)).length := by
        have := congrArg List.length h
        simp at this
        omega
      obtain ⟨h1, h2⟩ := List.append_inj h hlen
      have hdiv : m / 10 = n / 10 :=
        ih (m / 10) (Nat.div_lt_self (by omega) (by omega)) (n / 10) h1
      have hmod : m % 10 = n % 10 := by
        have h2' : Nat.digitChar (m % 10) = Nat.digitChar (n % 10) := by
          simpa using h2
        exact digitChar_inj_lt10 (m % 10) (Nat.mod_lt _ (by omega)) (n % 10)
          (Nat.mod_lt _ (by omega)) h2'
      omega

theorem Nat_repr_injective : ∀ m n : ℕ, Nat.repr m = Nat.repr n → m = n := by
  intro m n h
  have : (Nat.repr m).data = (Nat.repr n).data := by rw [h]
  simp only [Nat.repr, List.asString] at this
  rw [toDigits_eq_decimalDigits, toDigits_eq_decimalDigits] at this
  exact decimalDigits_injective m n this

theorem decimalDigits_mem_ne_dot : ∀ n : ℕ, ∀ c ∈ decimalDigits n, c ≠ '.' := by
  intro n
  induction n using Nat.strong_induction_on with
  | _ n ih =>
    intro c hc
    rw [decimalDigits] at hc
    by_cases hn : n < 10
    · simp [hn] at hc
      subst hc
      exact (by decide : ∀ k : ℕ, k < 10 → Nat.digitChar k ≠ '.') n hn
    · simp [hn] at hc
      rcases hc with hc | hc
      · exact ih (n / 10) (Nat.div_lt_self (by omega) (by omega)) c hc
      · subst hc
        exact (by decide : ∀ k : ℕ, k < 10 → Nat.digitChar k ≠ '.') (n % 10)
          (Nat.mod_lt _ (by omega))

theorem repr_data_ne_dot (n : ℕ) : ∀ c ∈ (Nat.repr n).data, c ≠ '.' := by
  intro c hc
  simp only [Nat.repr, List.asString] at hc
  rw [toDigits_eq_decimalDigits] at hc
  exact decimalDigits_mem_ne_dot n c hc

/-! ### Date-key parsing (src/utils/date_utils.rs)

`parse_date_string` splits the date key on `-` or `/` and succeeds only when
exactly three components result (empty components are kept, as in Rust). -/

/-- Embedding of `date_utils::parse_date_string`. -/
def parse_date_string (dateStr : String) : Option (String × String × String) :=
  match splitString dateStr (fun c => c == '-' || c == '/') with
  | [y, m, d] => some (y, m, d)
  | _ => none

/-! ### Data model for the command layer

The environment abstracts the filesystem and the external engine: directory
existence, canonicalization (with its fall-back to the original path),
the engine-call outcome, the outcome of the export write/serialize step,
the initially existing files, and per-call success of directory creation
and file copies. -/

/-- Error kind of a failed export step (`File::create` / serialization). -/
inductive ExportErr
  | ioError
  | serializationError
deriving DecidableEq

/-- Validation failures raised by `utils::validation`. -/
inductive VErr
  | srcNotExist
  | srcNotDir
  | sameDir
  | copyNeedsTarget
  | badThreshold
deriving DecidableEq

/-- Command-level error outcome of an orchestrator run. -/
inductive CmdErr
  | invalidInput (e : VErr)
  | operationFailed
  | exportFailed (e : ExportErr)
  | targetDirFailed
  | copyRequiresTarget
deriving DecidableEq

/-- Abstract filesystem / engine environment for one command invocation. -/
structure Env where
  dirExists : String → Bool
  isDir : String → Bool
  canonical : String → String
  engineResult : Except Unit (List (String × List String) × List String)
  exportOutcome : Except ExportErr Unit
  fs0 : List String
  mkdirOk : String → Bool
  copyOk : String → String → Bool
  fileSize : String → ℕ

/-- Export file format flag (`--export-format`). -/
inductive ExportFormat
  | csv
  | json
deriving DecidableEq

/-- Embedding of `commands::args::OrganizeArgs` (the format filter is kept
abstract as a string since it only configures the external engine). -/
structure OrganizeArgs where
  directory : String
  recursive : Bool
  format : Option String
  exportPath : Option String
  exportFormat : ExportFormat
  targetPath : Option String
  copy : Bool

/-- Preset threshold levels (`--sensitivity`). -/
inductive ThresholdLevel
  | low
  | medium
  | high
deriving DecidableEq

/-- Duplicate detection mode (`--mode`). -/
inductive DuplicateScanMode
  | sizeFiltered
  | complete
deriving DecidableEq

/-- Embedding of `commands::args::DuplicatesArgs`; the `f32` threshold is
modelled as a rational. -/
structure DuplicatesArgs where
  directory : String
  recursive : Bool
  threshold : Option ℚ
  sensitivity : Option ThresholdLevel
  exportPath : Option String
  exportFormat : ExportFormat
  mode : DuplicateScanMode

/-! ### Validation gate (src/utils/validation.rs) -/

/-- Embedding of `validation::validate_directory` (the human-readable
description only affects the message text and is dropped). -/
def validate_directory (env : Env) (path : String) : Except VErr Unit :=
  if !env.dirExists path then .error .srcNotExist
  else if !env.isDir path then .error .srcNotDir
  else .ok ()

/-- Embedding of `validation::validate_different_directories`: compares the
canonicalized paths (`Env.canonical` already models the
`canonicalize().unwrap_or_else(...)` fall-back). -/
def validate_different_directories (env : Env) (source target : String) : Except VErr Unit :=
  if env.canonical source = env.canonical target then .error .sameDir else .ok ()

/-- Embedding of `validation::validate_organize_args` (each Rust `?` is an
explicit error-propagating match). -/
def validate_organize_args (env : Env) (args : OrganizeArgs) : Except VErr Unit :=
  match validate_directory env args.directory with
  | .error e => .error e
  | .ok _ =>
    match
      (match args.targetPath with
       | some targetPath =>
         if env.dirExists targetPath && env.isDir targetPath then
           validate_different_directories env args.directory targetPath
         else .ok ()
       | none => .ok ()) with
    | .error e => .error e
    | .ok _ =>
      if args.copy && args.targetPath.isNone then .error .copyNeedsTarget else .ok ()

/-- Embedding of `validation::validate_similarity_threshold`:
rejects unless `0.0 <= t <= 1.0`. -/
def validate_similarity_threshold (threshold : ℚ) : Except VErr Unit :=
  if ¬ (0 ≤ threshold ∧ threshold ≤ 1) then .error .badThreshold else .ok ()

/-- Embedding of `validation::validate_duplicates_args`. -/
def validate_duplicates_args (env : Env) (args : DuplicatesArgs) : Except VErr Unit :=
  match validate_directory env args.directory with
  | .error e => .error e
  | .ok _ =>
    match args.threshold with
    | some t => validate_similarity_threshold t
    | none => .ok ()

/-! ### Collision-safe unique file names (src/utils/file_ops.rs)

The Rust loop keeps a `counter` starting at 1; while the current candidate
path exists it forms `format!("{}_{}", stem, counter)`, applies
`with_file_name` then (when the original had one) `with_extension`, bumps
the counter and errors once `counter > MAX_FILENAME_ATTEMPTS`.  We embed the
loop with an explicit fuel equal to `MAX_FILENAME_ATTEMPTS - counter`, which
makes the recursion structural without changing any tested candidate: the
Rust code errors exactly when the original name and the candidates for
counters `1..=999` all exist (the counter-1000 candidate is formed but never
tested for existence before the bound check fires). -/

/-- Bound `file_ops::config::MAX_FILENAME_ATTEMPTS`. -/
def MAX_FILENAME_ATTEMPTS : ℕ := 1000

/-- Stem used by `get_unique_filename`: Rust `file_stem()` of the target
path, with the `unwrap_or("file")` fall-back for degenerate names. -/
def gufStem (name : String) : String :=
  if name = "" ∨ name = ".." then "file" else rust_file_stem name

/-- Extension used by `get_unique_filename` (Rust `extension()`). -/
def gufExt (name : String) : Option String :=
  if name = "" ∨ name = ".." then none else rust_extension name

/-- File name tried for counter value `k`: `stem_k` run through
`with_file_name` and then Rust's `with_extension` when the original name
had an extension. -/
def candidate_name (stem : String) (ext : Option String) (k : ℕ) : String :=
  let newStem := stem ++ "_" ++ Nat.repr k
  match ext with
  | none => newStem
  | some e => rust_with_extension newStem e

/-- The collision loop of `file_ops::get_unique_filename`; `ex` is the
existence predicate of the surrounding filesystem, `dir` the (unchanged)
parent directory of the target path. -/
def unique_from (ex : String → Bool) (dir stem : String) (ext : Option String) :
    ℕ → ℕ → String → Except Unit String
  | _, 0, cur => if ex cur then .error () else .ok cur
  | counter, fuel + 1, cur =>
    if ex cur then
      unique_from ex dir stem ext (counter + 1) fuel
        (dir ++ "/" ++ candidate_name stem ext counter)
    else .ok cur

/-- Embedding of `file_ops::get_unique_filename` for the target path
`dir ++ "/" ++ name`. -/
def get_unique_filename (ex : String → Bool) (dir name : String) : Except Unit String :=
  unique_from ex dir (gufStem name) (gufExt name) 1 (MAX_FILENAME_ATTEMPTS - 1)
    (dir ++ "/" ++ name)

/-- Embedding of `file_ops::get_target_directory` (the identity). -/
def get_target_directory (basePath : String) : String := basePath

/-! ### Export documents (src/export/data.rs, src/commands/duplicates.rs)

`ExportData::duplicates` flattens the duplicate groups into one leaf record
per file; the groups themselves are built by `display_duplicates_results`
which numbers them `group_1`, `group_2`, ... and stamps the configured
similarity threshold on every group. -/

/-- Embedding of `export::data::DuplicateGroup`. -/
structure DuplicateGroup where
  group_id : String
  files : List String
  similarity : ℚ
deriving DecidableEq

/-- Embedding of `export::data::DuplicateFileRecord`. -/
structure DuplicateFileRecord where
  file_path : String
  group_id : String
  position_in_group : ℕ
  group_size : ℕ
  similarity : ℚ
  file_size_bytes : ℕ
  file_extension : String
deriving DecidableEq

/-- Records produced for a single group by the inner loop of
`ExportData::duplicates` (enumerate the files, 1-based positions). -/
def duplicate_records_of_group (env : Env) (g : DuplicateGroup) : List DuplicateFileRecord :=
  g.files.enum.map fun ⟨position, file_path⟩ =>
    { file_path := file_path
      group_id := g.group_id
      position_in_group := position + 1
      group_size := g.files.length
      similarity := g.similarity
      file_size_bytes := env.fileSize file_path
      file_extension := (rust_extension (fileNameOf file_path)).getD "" }

/-- Leaf records of the document built by `ExportData::duplicates`. -/
def export_data_duplicates (env : Env) (duplicate_groups : List DuplicateGroup) :
    List DuplicateFileRecord :=
  duplicate_groups.flatMap (duplicate_records_of_group env)

/-- Embedding of the group construction in
`commands::duplicates::display_duplicates_results`: group ids are
`"group_" ++ (index+1)` and every group carries the configured threshold. -/
def mk_export_groups (duplicate_groups : List (List String)) (threshold : ℚ) :
    List DuplicateGroup :=
  duplicate_groups.enum.map fun ⟨index, group⟩ =>
    { group_id := "group_" ++ Nat.repr (index + 1)
      files := group
      similarity := threshold }

/-! ### Progress monitoring bridge (src/progress/mod.rs)

The monitor thread loops `while !progress_handle.is_complete()`, rendering
one progress line per tick and sleeping, and renders a single final
"Operation completed" line once the loop test observes completion.  We
index loop iterations by tick number: `obs k` is the value of
`is_complete()` at the k-th loop test, and the loop is embedded with fuel
(`none` = the observation window was too short to see completion). -/

/-- One rendering action of the monitor task. -/
inductive MEvent
  | progress (tick : ℕ)
  | completed
deriving DecidableEq

/-- Embedding of the monitor loop of `start_progress_monitoring`, started
at tick `k` with the given fuel. -/
def monitor_loop (obs : ℕ → Bool) : ℕ → ℕ → Option (List MEvent)
  | 0, _ => none
  | fuel + 1, k =>
    if obs k then some [MEvent.completed]
    else (monitor_loop obs fuel (k + 1)).map (fun evs => MEvent.progress k :: evs)

/-! ### File materialization (src/commands/organize.rs, copy_files_to_target) -/

/-- Observable effects of one `organize` invocation, in program order. -/
inductive Eff
  | engineCall
  | joinMonitor
  | exportWrite
  | mkdirAll (dir : String)
  | fileCopy (src dst : String)
  | present
deriving DecidableEq

/-- Mutable state threaded through the copy loop: the set of existing
files, the accumulated `copy_errors`, and the effect trace. -/
structure MState where
  fs : List String
  errors : List String
  trace : List Eff
deriving DecidableEq

/-- Embedding of the per-file body of the copy loop: existence check,
collision-safe rename, `fs::copy`; returns the destination actually
written on success. -/
def copy_one_file (env : Env) (dateDir : String) (st : MState) (src : String) :
    MState × Option String :=
  let name := fileNameOf src
  let target := dateDir ++ "/" ++ name
  let chosen : Except Unit String :=
    if target ∈ st.fs then get_unique_filename (fun p => decide (p ∈ st.fs)) dateDir name
    else .ok target
  match chosen with
  | .error _ =>
    ({ st with errors := st.errors ++ ["Failed to generate unique filename for " ++ target] },
      none)
  | .ok dst =>
    if env.copyOk src dst then
      ({ st with fs := dst :: st.fs, trace := st.trace ++ [.fileCopy src dst] }, some dst)
    else
      ({ st with errors := st.errors ++ ["Failed to copy " ++ src ++ " to " ++ dst] }, none)

/-- Folds `copy_one_file` over the files of one date bucket, collecting
`files_for_date` (destinations of successful copies, in order). -/
def copy_bucket_files (env : Env) (dateDir : String) :
    MState → List String → MState × List String
  | st, [] => (st, [])
  | st, f :: fs =>
    let s1 := copy_one_file env dateDir st f
    let s2 := copy_bucket_files env dateDir s1.1 fs
    (s2.1, match s1.2 with | some dst => dst :: s2.2 | none => s2.2)

/-- Embedding of one iteration of the outer date loop: parse the date key,
create the date directory, copy the bucket.  The second component is
`some files_for_date` when the loop body reaches its trailing
`copied_files.insert` (malformed keys do, failed `create_dir_all` does
not). -/
def process_bucket (env : Env) (targetDir : String) (st : MState)
    (date : String) (files : List String) : MState × Option (List String) :=
  match parse_date_string date with
  | none => (st, some [])
  | some (year, month, day) =>
    let dateDir := targetDir ++ "/" ++ year ++ "/" ++ month ++ "/" ++ day
    let st1 : MState := { st with trace := st.trace ++ [.mkdirAll dateDir] }
    if env.mkdirOk dateDir then
      let s2 := copy_bucket_files env dateDir st1 files
      (s2.1, some s2.2)
    else
      ({ st1 with errors := st1.errors ++ ["Failed to create directory " ++ dateDir] }, none)

/-- Folds `process_bucket` over all date buckets, building `copied_files`. -/
def copy_all_buckets (env : Env) (targetDir : String) :
    MState → List (String × List String) → MState × List (String × List String)
  | st, [] => (st, [])
  | st, (date, files) :: rest =>
    let s1 := process_bucket env targetDir st date files
    let s2 := copy_all_buckets env targetDir s1.1 rest
    (s2.1,
      match s1.2 with
      | some filesForDate => (date, filesForDate) :: s2.2
      | none => s2.2)

/-- Embedding of `copy_files_to_target`: zero total files short-circuits
with an empty map and no directory creation; a failed `create_dir_all` on
the target root propagates (the Rust `?`); otherwise the buckets are
processed best-effort. -/
def copy_files_to_target (env : Env) (organized : List (String × List String))
    (targetBase : String) (st : MState) :
    MState × Except Unit (List (String × List String)) :=
  let targetDir := get_target_directory targetBase
  let total : ℕ := (organized.map (fun b => b.2.length)).sum
  if total = 0 then (st, .ok [])
  else
    let st1 : MState := { st with trace := st.trace ++ [.mkdirAll targetDir] }
    if env.mkdirOk targetDir then
      let s2 := copy_all_buckets env targetDir st1 organized
      (s2.1, .ok s2.2)
    else (st1, .error ())

/-! ### Organize orchestrator (src/commands/organize.rs, handle_organize) -/

/-- Embedding of `handle_organize` after CLI parsing: validation, engine
call (with the monitor joined right after it returns), the empty-result
early exit, the export step (whose failure propagates via `?`), the copy
step, and the final presentation.  Returns the command outcome and the
ordered effect trace. -/
def handle_organize (env : Env) (args : OrganizeArgs) : Except CmdErr Unit × List Eff :=
  match validate_organize_args env args with
  | .error e => (.error (.invalidInput e), [])
  | .ok _ =>
    match env.engineResult with
    | .error _ => (.error .operationFailed, [.engineCall])
    | .ok (organized, errors) =>
      let tr0 : List Eff := [.engineCall, .joinMonitor]
      if organized.isEmpty && errors.isEmpty then (.ok (), tr0)
      else
        let afterExport : Except CmdErr (List Eff) :=
          match args.exportPath with
          | none => .ok tr0
          | some _ =>
            match env.exportOutcome with
            | .error e => .error (.exportFailed e)
            | .ok _ => .ok (tr0 ++ [.exportWrite])
        match afterExport with
        | .error e => (.error e, tr0)
        | .ok tr1 =>
          if args.copy then
            match args.targetPath with
            | some targetPath =>
              let r := copy_files_to_target env organized targetPath ⟨env.fs0, [], []⟩
              match r.2 with
              | .error _ => (.error .targetDirFailed, tr1 ++ r.1.trace)
              | .ok _ => (.ok (), tr1 ++ r.1.trace ++ [.present])
            | none => (.error .copyRequiresTarget, tr1)
          else (.ok (), tr1 ++ [.present])

/-! ### Duplicates presentation and export (src/commands/duplicates.rs) -/

/-- Observable effects of `display_duplicates_results`, in program order. -/
inductive DupEff
  | preview
  | exportWrite
  | errorsShown
deriving DecidableEq

/-- Embedding of `display_duplicates_results`: preview first, then the
export step (whose failure propagates via `?`, skipping the error display
that follows), then the processing-error display. -/
def display_duplicates_results (env : Env) (args : DuplicatesArgs)
    (_duplicate_groups : List (List String)) (_errors : List String) (_threshold : ℚ) :
    Except CmdErr Unit × List DupEff :=
  let tr0 : List DupEff := [.preview]
  match args.exportPath with
  | none => (.ok (), tr0 ++ [.errorsShown])
  | some _ =>
    match env.exportOutcome with
    | .error e => (.error (.exportFailed e), tr0)
    | .ok _ => (.ok (), tr0 ++ [.exportWrite, .errorsShown])

/-! ### Lemmas about the collision loop -/

theorem unique_from_ok_not_exists (ex : String → Bool) (dir stem : String)
    (ext : Option String) :
    ∀ (fuel counter : ℕ) (cur r : String),
      unique_from ex dir stem ext counter fuel cur = .ok r → ex r = false := by
  intro fuel
  induction fuel with
  | zero =>
    intro counter cur r h
    rw [unique_from] at h
    by_cases hex : ex cur
    · simp [hex] at h
    · simp [hex] at h
      subst h
      simpa using hex
  | succ f ih =>
    intro counter cur r h
    rw [unique_from] at h
    by_cases hex : ex cur
    · rw [if_pos hex] at h
      exact ih _ _ _ h
    · rw [if_neg hex] at h
      simp at h
      subst h
      simpa using hex

theorem unique_from_ok_of_not_exists (ex : String → Bool) (dir stem : String)
    (ext : Option String) (fuel counter : ℕ) (cur : String) (hex : ex cur = false) :
    unique_from ex dir stem ext counter fuel cur = .ok cur := by
  cases fuel <;> simp [unique_from, hex]

theorem unique_from_finds (ex : String → Bool) (dir stem : String) (ext : Option String) :
    ∀ (fuel counter : ℕ) (cur : String) (j : ℕ),
      counter ≤ j → j < counter + fuel → ex cur = true →
      (∀ i, counter ≤ i → i < j → ex (dir ++ "/" ++ candidate_name stem ext i) = true) →
      ex (dir ++ "/" ++ candidate_name stem ext j) = false →
      unique_from ex dir stem ext counter fuel cur =
        .ok (dir ++ "/" ++ candidate_name stem ext j) := by
  intro fuel
  induction fuel with
  | zero =>
    intro counter cur j h1 h2 _ _ _
    omega
  | succ f ih =>
    intro counter cur j h1 h2 hex hall hj
    rw [unique_from, if_pos hex]
    by_cases hcj : counter = j
    · subst hcj
      exact unique_from_ok_of_not_exists ex dir stem ext f (counter + 1) _ hj
    · exact ih (counter + 1) _ j (by omega) (by omega)
        (hall counter (le_refl _) (by omega))
        (fun i hi1 hi2 => hall i (by omega) hi2) hj

theorem unique_from_exhausts (ex : String → Bool) (dir stem : String) (ext : Option String) :
    ∀ (fuel counter : ℕ) (cur : String),
      counter + fuel = MAX_FILENAME_ATTEMPTS → ex cur = true →
      (∀ i, counter ≤ i → i ≤ MAX_FILENAME_ATTEMPTS - 1 →
        ex (dir ++ "/" ++ candidate_name stem ext i) = true) →
      unique_from ex dir stem ext counter fuel cur = .error () := by
  intro fuel
  induction fuel with
  | zero =>
    intro counter cur _ hex _
    simp [unique_from, hex]
  | succ f ih =>
    intro counter cur hcf hex hall
    rw [unique_from, if_pos hex]
    refine ih (counter + 1) _ (by omega) ?_ (fun i hi1 hi2 => hall i (by omega) hi2)
    exact hall counter (le_refl _) (by simp [MAX_FILENAME_ATTEMPTS] at hcf ⊢; omega)

theorem splitLastDot_eq_none_iff : ∀ l : List Char, splitLastDot l = none ↔ '.' ∉ l := by
  intro l
  induction l with
  | nil => simp [splitLastDot]
  | cons c cs ih =>
    rcases h : splitLastDot cs with - | ⟨s, e⟩
    · have hcs : '.' ∉ cs := ih.mp h
      by_cases hc : c = '.'
      · subst hc
        simp [splitLastDot, h, hcs]
      · simp [splitLastDot, h, hc, hcs, Ne.symm hc]
    · have hcs : '.' ∈ cs := by
        by_contra hno
        have hnone := ih.mpr hno
        rw [h] at hnone
        simp at hnone
      simp [splitLastDot, h, hcs]

theorem rust_file_stem_of_no_dot (name : String) (h : '.' ∉ name.data) :
    rust_file_stem name = name := by
  rw [rust_file_stem, (splitLastDot_eq_none_iff name.data).mpr h]

/-! ### Lemmas about the materialization loop -/

theorem copy_one_file_spec (env : Env) (dateDir : String) (st : MState) (src : String) :
    st.fs ⊆ (copy_one_file env dateDir st src).1.fs ∧
    (∃ app, (copy_one_file env dateDir st src).1.trace = st.trace ++ app ∧
      ∀ s d, Eff.fileCopy s d ∈ app → d ∉ st.fs) ∧
    ((copy_one_file env dateDir st src).2.isSome →
      (copy_one_file env dateDir st src).1.errors = st.errors) ∧
    ((copy_one_file env dateDir st src).2.isNone →
      (copy_one_file env dateDir st src).1.errors.length = st.errors.length + 1) := by
  rw [copy_one_file]
  by_cases hmem : (dateDir ++ "/" ++ fileNameOf src) ∈ st.fs
  · cases hg : get_unique_filename (fun p => decide (p ∈ st.fs)) dateDir (fileNameOf src) with
    | error u =>
      simp only [hmem, if_true, hg]
      refine ⟨by simp, ⟨[], by simp⟩, by simp, by simp⟩
    | ok dst =>
      have hfresh : dst ∉ st.fs := by
        have := unique_from_ok_not_exists _ dateDir _ _ _ _ _ _ hg
        simpa using this
      simp only [hmem, if_true, hg]
      by_cases hcp : env.copyOk src dst
      · simp only [hcp, if_true]
        refine ⟨by intro x hx; simp [hx], ⟨[Eff.fileCopy src dst], by simp, ?_⟩, by simp, by simp⟩
        intro s d hd
        simp at hd
        rw [hd.2]
        exact hfresh
      · simp only [hcp, if_false]
        refine ⟨by simp, ⟨[], by simp⟩, by simp, by simp⟩
  · simp only [hmem, if_false]
    by_cases hcp : env.copyOk src (dateDir ++ "/" ++ fileNameOf src)
    · simp only [hcp, if_true]
      refine ⟨by intro x hx; simp [hx], ⟨[Eff.fileCopy src (dateDir ++ "/" ++ fileNameOf src)], by simp, ?_⟩, by simp, by simp⟩
      intro s d hd
      simp at hd
      rw [hd.2]
      exact hmem
    · simp only [hcp, if_false]
      refine ⟨by simp, ⟨[], by simp⟩, by simp, by simp⟩

theorem copy_bucket_files_spec (env : Env) (dateDir : String) :
    ∀ (files : List String) (st : MState),
      st.fs ⊆ (copy_bucket_files env dateDir st files).1.fs ∧
      (∃ app, (copy_bucket_files env dateDir st files).1.trace = st.trace ++ app ∧
        ∀ s d, Eff.fileCopy s d ∈ app → d ∉ st.fs) ∧
      (copy_bucket_files env dateDir st files).2.length +
          (copy_bucket_files env dateDir st files).1.errors.length =
        files.length + st.errors.length := by
  intro files
  induction files with
  | nil =>
    intro st
    refine ⟨by simp [copy_bucket_files], ⟨[], by simp [copy_bucket_files]⟩,
      by simp [copy_bucket_files]⟩
  | cons f fs ih =>
    intro st
    obtain ⟨hsub1, ⟨app1, htr1, hfr1⟩, hsome1, hnone1⟩ := copy_one_file_spec env dateDir st f
    obtain ⟨hsub2, ⟨app2, htr2, hfr2⟩, hacc2⟩ := ih (copy_one_file env dateDir st f).1
    rw [copy_bucket_files]
    refine ⟨fun x hx => hsub2 (hsub1 hx), ⟨app1 ++ app2, ?_, ?_⟩, ?_⟩
    · simp only [htr2, htr1, List.append_assoc]
    · intro s d hd
      rcases List.mem_append.mp hd with hd | hd
      · exact hfr1 s d hd
      · intro habs
        exact hfr2 s d hd (hsub1 habs)
    · rcases hr : (copy_one_file env dateDir st f).2 with - | dst
      · have := hnone1 (by simp [hr])
        simp only [hr]
        simp at hacc2 ⊢
        omega
      · have := hsome1 (by simp [hr])
        simp only [hr]
        simp at hacc2 ⊢
        rw [this] at hacc2
        omega

theorem process_bucket_spec (env : Env) (targetDir : String) (st : MState)
    (date : String) (files : List String) :
    st.fs ⊆ (process_bucket env targetDir st date files).1.fs ∧
    (∃ app, (process_bucket env targetDir st date files).1.trace = st.trace ++ app ∧
      ∀ s d, Eff.fileCopy s d ∈ app → d ∉ st.fs) := by
  rw [process_bucket]
  rcases hp : parse_date_string date with - | ⟨y, m, d⟩
  · exact ⟨by simp, ⟨[], by simp⟩⟩
  · simp only []
    by_cases hmk : env.mkdirOk (targetDir ++ "/" ++ y ++ "/" ++ m ++ "/" ++ d)
    · simp only [hmk, if_true]
      obtain ⟨hsub, ⟨app, htr, hfr⟩, -⟩ :=
        copy_bucket_files_spec env (targetDir ++ "/" ++ y ++ "/" ++ m ++ "/" ++ d) files
          { st with trace := st.trace ++ [Eff.mkdirAll (targetDir ++ "/" ++ y ++ "/" ++ m ++ "/" ++ d)] }
      refine ⟨hsub, ⟨Eff.mkdirAll (targetDir ++ "/" ++ y ++ "/" ++ m ++ "/" ++ d) :: app, ?_, ?_⟩⟩
      · rw [htr]
        simp
      · intro s dd hd
        simp at hd
        exact hfr s dd hd
    · simp only [hmk, if_false]
      exact ⟨by simp, ⟨[Eff.mkdirAll (targetDir ++ "/" ++ y ++ "/" ++ m ++ "/" ++ d)], by simp, by simp⟩⟩

theorem copy_all_buckets_spec (env : Env) (targetDir : String) :
    ∀ (organized : List (String × List String)) (st : MState),
      st.fs ⊆ (copy_all_buckets env targetDir st organized).1.fs ∧
      (∃ app, (copy_all_buckets env targetDir st organized).1.trace = st.trace ++ app ∧
        ∀ s d, Eff.fileCopy s d ∈ app → d ∉ st.fs) := by
  intro organized
  induction organized with
  | nil =>
    intro st
    exact ⟨by simp [copy_all_buckets], ⟨[], by simp [copy_all_buckets]⟩⟩
  | cons b rest ih =>
    intro st
    obtain ⟨hsub1, ⟨app1, htr1, hfr1⟩⟩ := process_bucket_spec env targetDir st b.1 b.2
    obtain ⟨hsub2, ⟨app2, htr2, hfr2⟩⟩ := ih (process_bucket env targetDir st b.1 b.2).1
    rw [copy_all_buckets]
    refine ⟨fun x hx => hsub2 (hsub1 hx), ⟨app1 ++ app2, ?_, ?_⟩⟩
    · simp only [htr2, htr1, List.append_assoc]
    · intro s d hd
      rcases List.mem_append.mp hd with hd | hd
      · exact hfr1 s d hd
      · intro habs
        exact hfr2 s d hd (hsub1 habs)

theorem copy_files_to_target_fresh (env : Env) (organized : List (String × List String))
    (targetBase : String) (st : MState) :
    st.fs ⊆ (copy_files_to_target env organized targetBase st).1.fs ∧
    (∃ app, (copy_files_to_target env organized targetBase st).1.trace = st.trace ++ app ∧
      ∀ s d, Eff.fileCopy s d ∈ app → d ∉ st.fs) := by
  rw [copy_files_to_target]
  by_cases h0 : ((organized.map (fun b => b.2.length)).sum : ℕ) = 0
  · simp only [h0, if_true]
    exact ⟨by simp, ⟨[], by simp⟩⟩
  · simp only [h0, if_false]
    by_cases hmk : env.mkdirOk (get_target_directory targetBase)
    · simp only [hmk, if_true]
      obtain ⟨hsub, ⟨app, htr, hfr⟩⟩ := copy_all_buckets_spec env (get_target_directory targetBase)
        organized { st with trace := st.trace ++ [Eff.mkdirAll (get_target_directory targetBase)] }
      refine ⟨hsub, ⟨Eff.mkdirAll (get_target_directory targetBase) :: app, ?_, ?_⟩⟩
      · rw [htr]
        simp
      · intro s d hd
        simp at hd
        exact hfr s d hd
    · simp only [hmk, if_false]
      exact ⟨by simp, ⟨[Eff.mkdirAll (get_target_directory targetBase)], by simp, by simp⟩⟩

/-! ### Lemmas about the duplicates export document -/

theorem String_data_inj {a b : String} (h : a.data = b.data) : a = b := by
  cases a
  cases b
  exact congrArg String.mk h

theorem group_id_mk_injective (a b : ℕ)
    (h : "group_" ++ Nat.repr (a + 1) = "group_" ++ Nat.repr (b + 1)) : a = b := by
  have hd := congrArg String.data h
  simp only [String.data_append] at hd
  have : (Nat.repr (a + 1)).data = (Nat.repr (b + 1)).data :=
    List.append_cancel_left hd
  have := Nat_repr_injective (a + 1) (b + 1) (String_data_inj this)
  omega

theorem records_of_group_fields (env : Env) (g : DuplicateGroup) :
    ∀ r ∈ duplicate_records_of_group env g,
      r.group_id = g.group_id ∧ r.group_size = g.files.length ∧ r.similarity = g.similarity := by
  intro r hr
  rw [duplicate_records_of_group] at hr
  obtain ⟨⟨pos, fp⟩, hmem, rfl⟩ := List.mem_map.mp hr
  exact ⟨rfl, rfl, rfl⟩

theorem records_of_group_length (env : Env) (g : DuplicateGroup) :
    (duplicate_records_of_group env g).length = g.files.length := by
  rw [duplicate_records_of_group]
  simp

theorem records_of_group_positions_aux (env : Env) (g : DuplicateGroup) :
    ∀ (files : List String) (n : ℕ),
      ((files.enumFrom n).map fun ⟨position, file_path⟩ =>
        ({ file_path := file_path
           group_id := g.group_id
           position_in_group := position + 1
           group_size := g.files.length
           similarity := g.similarity
           file_size_bytes := env.fileSize file_path
           file_extension := (rust_extension (fileNameOf file_path)).getD "" } :
          DuplicateFileRecord)).map (fun r => r.position_in_group) =
      List.range' (n + 1) files.length := by
  intro files
  induction files with
  | nil => intro n; simp
  | cons x xs ih =>
    intro n
    rw [List.enumFrom_cons]
    simp only [List.map_cons, List.length_cons, List.range'_succ]
    rw [ih (n + 1)]

theorem records_of_group_positions (env : Env) (g : DuplicateGroup) :
    (duplicate_records_of_group env g).map (fun r => r.position_in_group) =
      List.range' 1 g.files.length := by
  rw [duplicate_records_of_group]
  have := records_of_group_positions_aux env g g.files 0
  simpa [List.enum] using this

theorem mk_groups_ids_aux (thr : ℚ) :
    ∀ (gs : List (List String)) (n : ℕ),
      ((gs.enumFrom n).map fun ⟨index, group⟩ =>
        ({ group_id := "group_" ++ Nat.repr (index + 1)
           files := group
           similarity := thr } : DuplicateGroup)).map (fun g => g.group_id) =
      (List.range' n gs.length).map (fun i => "group_" ++ Nat.repr (i + 1)) := by
  intro gs
  induction gs with
  | nil => intro n; simp
  | cons x xs ih =>
    intro n
    rw [List.enumFrom_cons]
    simp only [List.map_cons, List.length_cons, List.range'_succ]
    rw [ih (n + 1)]

theorem mk_export_groups_ids (gs : List (List String)) (thr : ℚ) :
    (mk_export_groups gs thr).map (fun g => g.group_id) =
      (List.range gs.length).map (fun i => "group_" ++ Nat.repr (i + 1)) := by
  rw [mk_export_groups]
  have := mk_groups_ids_aux thr gs 0
  rw [List.range_eq_range']
  simpa [List.enum] using this

theorem mk_export_groups_ids_nodup (gs : List (List String)) (thr : ℚ) :
    ((mk_export_groups gs thr).map (fun g => g.group_id)).Nodup := by
  rw [mk_export_groups_ids]
  refine List.Nodup.map ?_ (List.nodup_range gs.length)
  intro a b hab
  exact group_id_mk_injective a b hab

theorem mk_groups_files_aux (thr : ℚ) :
    ∀ (gs : List (List String)) (n : ℕ),
      ((gs.enumFrom n).map fun ⟨index, group⟩ =>
        ({ group_id := "group_" ++ Nat.repr (index + 1)
           files := group
           similarity := thr } : DuplicateGroup)).map (fun g => g.files) = gs := by
  intro gs
  induction gs with
  | nil => intro n; simp
  | cons x xs ih =>
    intro n
    rw [List.enumFrom_cons]
    simp only [List.map_cons]
    rw [ih (n + 1)]

theorem mk_export_groups_files (gs : List (List String)) (thr : ℚ) :
    (mk_export_groups gs thr).map (fun g => g.files) = gs := by
  rw [mk_export_groups]
  have := mk_groups_files_aux thr gs 0
  simpa [List.enum] using this

theorem filter_blocks_not_mem (env : Env) (gid : String) :
    ∀ t : List DuplicateGroup, (∀ h ∈ t, h.group_id ≠ gid) →
      ((t.flatMap (duplicate_records_of_group env)).filter
        (fun r => r.group_id == gid)) = [] := by
  intro t
  induction t with
  | nil => simp
  | cons h t ih =>
    intro hall
    rw [List.flatMap_cons, List.filter_append,
      ih (fun x hx => hall x (List.mem_cons_of_mem h hx)), List.append_nil]
    rw [List.filter_eq_nil_iff]
    intro r hr
    have hid := (records_of_group_fields env h r hr).1
    have hne := hall h (List.mem_cons_self h t)
    simp [hid, hne]

theorem filter_own_block (env : Env) (g : DuplicateGroup) :
    (duplicate_records_of_group env g).filter (fun r => r.group_id == g.group_id) =
      duplicate_records_of_group env g := by
  rw [List.filter_eq_self]
  intro r hr
  have hid := (records_of_group_fields env g r hr).1
  simp [hid]

theorem records_filter_block (env : Env) :
    ∀ (l : List DuplicateGroup) (g : DuplicateGroup), g ∈ l →
      (l.map (fun h => h.group_id)).Nodup →
      (export_data_duplicates env l).filter (fun r => r.group_id == g.group_id) =
        duplicate_records_of_group env g := by
  intro l
  induction l with
  | nil =>
    intro g hg
    simp at hg
  | cons h t ih =>
    intro g hg hnd
    simp only [List.map_cons, List.nodup_cons, List.mem_map] at hnd
    rw [export_data_duplicates, List.flatMap_cons, List.filter_append]
    rcases List.mem_cons.mp hg with rfl | hgt
    · rw [filter_own_block env g]
      have hids : ∀ x ∈ t, x.group_id ≠ g.group_id := by
        intro x hx habs
        exact hnd.1 ⟨x, hx, habs⟩
      rw [filter_blocks_not_mem env g.group_id t hids, List.append_nil]
    · have hne : h.group_id ≠ g.group_id := by
        intro habs
        exact hnd.1 ⟨g, hgt, habs.symm⟩
      have hblock : (duplicate_records_of_group env h).filter
          (fun r => r.group_id == g.group_id) = [] := by
        rw [List.filter_eq_nil_iff]
        intro r hr
        have hid := (records_of_group_fields env h r hr).1
        simp [hid, hne]
      rw [hblock]
      have := ih g hgt hnd.2
      rw [export_data_duplicates] at this
      rw [this, List.nil_append]

theorem export_data_duplicates_length (env : Env) (gs : List (List String)) (thr : ℚ) :
    (export_data_duplicates env (mk_export_groups gs thr)).length =
      (gs.map List.length).sum := by
  rw [export_data_duplicates, List.flatMap_def, List.length_flatten, List.map_map]
  have h1 : List.map (List.length ∘ duplicate_records_of_group env) (mk_export_groups gs thr)
      = List.map (List.length ∘ (fun g : DuplicateGroup => g.files)) (mk_export_groups gs thr) := by
    apply List.map_congr_left
    intro g _
    exact records_of_group_length env g
  rw [h1, ← List.map_map, mk_export_groups_files]

/-! ### Lemmas about the monitor loop and the orchestrator trace -/

theorem monitor_loop_first_true (obs : ℕ → Bool) :
    ∀ (fuel k j : ℕ), k ≤ j → j - k < fuel → obs j = true →
      (∀ i, k ≤ i → i < j → obs i = false) →
      monitor_loop obs fuel k =
        some (((List.range' k (j - k)).map MEvent.progress) ++ [MEvent.completed]) := by
  intro fuel
  induction fuel with
  | zero =>
    intro k j h1 h2 _ _
    omega
  | succ f ih =>
    intro k j h1 h2 hj hall
    rw [monitor_loop]
    by_cases hk : k = j
    · subst hk
      simp [hj]
    · have hkj : k < j := by omega
      have hobs : obs k = false := hall k (le_refl k) hkj
      rw [if_neg (by simp [hobs])]
      rw [ih (k + 1) j (by omega) (by omega) hj (fun i hi1 hi2 => hall i (by omega) hi2)]
      have h4 : j - (k + 1) = j - k - 1 := by omega
      have hr : List.range' k (j - k) = k :: List.range' (k + 1) (j - k - 1) := by
        have h3 : j - k = (j - k - 1) + 1 := by omega
        rw [h3, List.range'_succ]
        simp
      rw [h4, hr]
      simp

theorem candidate_name_shape (stem : String) (hs : '.' ∉ stem.data) (k : ℕ) :
    candidate_name stem none k = stem ++ "_" ++ Nat.repr k ∧
    ∀ e : String, e ≠ "" →
      candidate_name stem (some e) k = stem ++ "_" ++ Nat.repr k ++ "." ++ e := by
  constructor
  · rfl
  · intro e he
    have hnd : '.' ∉ (stem ++ "_" ++ Nat.repr k).data := by
      simp only [String.data_append]
      intro hmem
      rcases List.mem_append.mp hmem with hmem | hmem
      · rcases List.mem_append.mp hmem with hmem | hmem
        · exact hs hmem
        · exact absurd hmem (by decide)
      · exact repr_data_ne_dot k '.' hmem rfl
    have h2 : candidate_name stem (some e) k =
        rust_with_extension (stem ++ "_" ++ Nat.repr k) e := rfl
    rw [h2, rust_with_extension, if_neg he, rust_file_stem_of_no_dot _ hnd]

theorem validate_organize_args_copy_no_target (env : Env) (args : OrganizeArgs)
    (hc : args.copy = true) (ht : args.targetPath = none) :
    ∃ e, validate_organize_args env args = .error e := by
  rw [validate_organize_args]
  cases hv : validate_directory env args.directory with
  | error e => exact ⟨e, rfl⟩
  | ok u =>
    rw [ht]
    simp only [hc]
    exact ⟨.copyNeedsTarget, rfl⟩

theorem handle_organize_trace_shape (env : Env) (args : OrganizeArgs) :
    (handle_organize env args).2 = [] ∨ (handle_organize env args).2 = [Eff.engineCall] ∨
    ∃ t, (handle_organize env args).2 = Eff.engineCall :: Eff.joinMonitor :: t := by
  rw [handle_organize]
  cases hv : validate_organize_args env args with
  | error e => simp
  | ok u =>
    dsimp only
    cases he : env.engineResult with
    | error e => simp
    | ok pr =>
      rcases pr with ⟨organized, errors⟩
      dsimp only
      by_cases hempty : (organized.isEmpty && errors.isEmpty) = true
      · rw [if_pos hempty]
        right; right
        exact ⟨[], rfl⟩
      · rw [if_neg hempty]
        right; right
        cases hep : args.exportPath with
        | none =>
          dsimp only
          by_cases hcp : args.copy = true
          · rw [if_pos hcp]
            cases htp : args.targetPath with
            | none => exact ⟨[], rfl⟩
            | some tp =>
              dsimp only
              cases hr : (copy_files_to_target env organized tp ⟨env.fs0, [], []⟩).2 with
              | error a =>
                exact ⟨(copy_files_to_target env organized tp ⟨env.fs0, [], []⟩).1.trace, rfl⟩
              | ok m =>
                exact ⟨(copy_files_to_target env organized tp ⟨env.fs0, [], []⟩).1.trace ++
                  [Eff.present], by simp⟩
          · rw [if_neg hcp]
            exact ⟨[Eff.present], rfl⟩
        | some p =>
          dsimp only
          cases hout : env.exportOutcome with
          | error e => exact ⟨[], rfl⟩
          | ok v =>
            dsimp only
            by_cases hcp : args.copy = true
            · rw [if_pos hcp]
              cases htp : args.targetPath with
              | none => exact ⟨[Eff.exportWrite], rfl⟩
              | some tp =>
                dsimp only
                cases hr : (copy_files_to_target env organized tp ⟨env.fs0, [], []⟩).2 with
                | error a =>
                  exact ⟨[Eff.exportWrite] ++
                    (copy_files_to_target env organized tp ⟨env.fs0, [], []⟩).1.trace, by simp⟩
                | ok m =>
                  exact ⟨[Eff.exportWrite] ++
                    (copy_files_to_target env organized tp ⟨env.fs0, [], []⟩).1.trace ++
                    [Eff.present], by simp⟩
            · rw [if_neg hcp]
              exact ⟨[Eff.exportWrite, Eff.present], by simp⟩

theorem handle_organize_validation_error (env : Env) (args : OrganizeArgs) (e : VErr)
    (hv : validate_organize_args env args = .error e) :
    handle_organize env args = (.error (.invalidInput e), []) := by
  rw [handle_organize, hv]

theorem handle_organize_export_error (env : Env) (args : OrganizeArgs)
    (hval : validate_organize_args env args = .ok ())
    (org : List (String × List String)) (perrs : List String)
    (heng : env.engineResult = .ok (org, perrs))
    (hne : (org.isEmpty && perrs.isEmpty) = false)
    (p : String) (hexp : args.exportPath = some p)
    (e : ExportErr) (hout : env.exportOutcome = .error e) :
    handle_organize env args =
      (.error (.exportFailed e), [Eff.engineCall, Eff.joinMonitor]) := by
  simp [handle_organize, hval, heng, hne, hexp, hout]

theorem handle_organize_empty (env : Env) (args : OrganizeArgs)
    (hval : validate_organize_args env args = .ok ())
    (heng : env.engineResult = .ok ([], [])) :
    handle_organize env args = (.ok (), [Eff.engineCall, Eff.joinMonitor]) := by
  simp [handle_organize, hval, heng]

theorem join_before_present (env : Env) (args : OrganizeArgs) :
    ∀ l1 l2, (handle_organize env args).2 = l1 ++ Eff.present :: l2 →
      Eff.joinMonitor ∈ l1 := by
  intro l1 l2 h
  rcases handle_organize_trace_shape env args with hs | hs | ⟨t, hs⟩
  · rw [hs] at h
    exact absurd h.symm (by simp)
  · rw [hs] at h
    rcases l1 with - | ⟨x, l1⟩
    · simp at h
    · simp only [List.cons_append, List.cons.injEq] at h
      exact absurd h.2.symm (by simp)
  · rw [hs] at h
    rcases l1 with - | ⟨x, l1⟩
    · simp at h
    · rcases l1 with - | ⟨y, l1⟩
      · simp only [List.cons_append, List.nil_append, List.cons.injEq] at h
        exact absurd h.2.1 (by simp)
      · simp only [List.cons_append, List.cons.injEq] at h
        rw [h.2.1]
        simp

/-! ### Concrete environments for instantiations -/

/-- Convenience environment: every directory valid, canonicalization the
identity, every mkdir/copy succeeding, file sizes 0. -/
def mkEnv (eng : Except Unit (List (String × List String) × List String))
    (exp : Except ExportErr Unit) (fs : List String) : Env where
  dirExists := fun _ => true
  isDir := fun _ => true
  canonical := fun p => p
  engineResult := eng
  exportOutcome := exp
  fs0 := fs
  mkdirOk := fun _ => true
  copyOk := fun _ _ => true
  fileSize := fun _ => 0

/-- Environment with a nonempty engine result and a failing export write. -/
def envC1 : Env := mkEnv (.ok ([("2023-05-01", ["s/a.jpg"])], [])) (.error .ioError) []

/-- Organize invocation requesting export AND copy with a target. -/
def argsC1 : OrganizeArgs :=
  ⟨"s", false, none, some "out.csv", .csv, some "t", true⟩

/-- Duplicates invocation requesting export. -/
def dargsC1 : DuplicatesArgs :=
  ⟨"s", false, none, none, some "out.json", .json, .sizeFiltered⟩

/-! ### Claim theorems -/

/-- C1 (counterexample): with a valid scan, a nonempty engine result,
`--export` and `--copy --target-path` all set, and a failing export write,
`handle_organize` returns the export error as the command outcome and the
trace shows that materialization and presentation never happened — the
export failure aborted the whole command, not only the export step. -/
theorem c1_export_failure_counterexample :
    handle_organize envC1 argsC1 =
      (.error (.exportFailed .ioError), [Eff.engineCall, Eff.joinMonitor]) ∧
    Eff.present ∉ (handle_organize envC1 argsC1).2 ∧
    argsC1.copy = true ∧ argsC1.targetPath = some "t" ∧
    argsC1.exportPath = some "out.csv" := by
  refine ⟨rfl, ?_, rfl, rfl, rfl⟩
  decide

/-- C1 (amended): when the export step fails (`IOError`/`SerializationError`),
the error propagates through the Rust `?` and aborts the whole command: for
organize, the command result is the export error and the trace contains no
materialization and no presentation; for duplicates, the processing-error
display that follows the export is skipped and the command fails. -/
theorem export_failure_aborts_whole_command
    (env : Env) (args : OrganizeArgs) (dargs : DuplicatesArgs)
    (groups : List (List String)) (derrs : List String) (thr : ℚ)
    (org : List (String × List String)) (perrs : List String)
    (p q : String) (e : ExportErr)
    (hval : validate_organize_args env args = .ok ())
    (heng : env.engineResult = .ok (org, perrs))
    (hne : (org.isEmpty && perrs.isEmpty) = false)
    (hexp : args.exportPath = some p)
    (hout : env.exportOutcome = .error e)
    (hdexp : dargs.exportPath = some q) :
    handle_organize env args =
      (.error (.exportFailed e), [Eff.engineCall, Eff.joinMonitor]) ∧
    display_duplicates_results env dargs groups derrs thr =
      (.error (.exportFailed e), [DupEff.preview]) := by
  constructor
  · exact handle_organize_export_error env args hval org perrs heng hne p hexp e hout
  · simp [display_duplicates_results, hdexp, hout]

/-- C1 (witness): the amended claim instantiated at `envC1`/`argsC1`. -/
theorem export_failure_aborts_whole_command_witness :
    handle_organize envC1 argsC1 =
      (.error (.exportFailed .ioError), [Eff.engineCall, Eff.joinMonitor]) ∧
    display_duplicates_results envC1 dargsC1 [["a", "b"]] [] 1 =
      (.error (.exportFailed .ioError), [DupEff.preview]) :=
  export_failure_aborts_whole_command envC1 argsC1 dargsC1 [["a", "b"]] [] 1
    [("2023-05-01", ["s/a.jpg"])] [] "out.csv" "out.json" .ioError
    rfl rfl rfl rfl rfl rfl

/-- C2 (counterexample): for the multi-dot name `photo.backup.jpg` (whose
Rust file stem is `photo.backup`), the first alternative the code actually
tries is `photo.jpg` — `with_extension` strips the candidate stem's
trailing dot-component — not `photo.backup_1.jpg` as claimed, even though
that predicted name is free. -/
theorem c2_multidot_counterexample :
    get_unique_filename (fun p => p == "d/photo.backup.jpg") "d" "photo.backup.jpg" =
      .ok "d/photo.jpg" ∧
    gufStem "photo.backup.jpg" = "photo.backup" ∧
    (fun p => p == "d/photo.backup.jpg") "d/photo.backup_1.jpg" = false ∧
    ("d/photo.jpg" : String) ≠ "d/photo.backup_1.jpg" := by
  exact ⟨rfl, rfl, rfl, by decide⟩

/-- C2 (amended): for destination names whose Rust file stem contains no
`.` (and whose extension, when present, is nonempty), the k-th alternative
tried is the stem with `_k` appended before the extension, the search is
deterministic and monotonic (the loop returns the first non-existing
candidate), it is bounded at `MAX_FILENAME_ATTEMPTS = 1000` existence
tests (the original name plus candidates 1..999, all existing, yield the
ResourceExhausted error), and such an error only records one error for
that file while the bucket loop continues: every file of a bucket ends up
either copied or with exactly one error. -/
theorem unique_filename_monotonic_bounded :
    (∀ stem : String, '.' ∉ stem.data →
      (∀ k, candidate_name stem none k = stem ++ "_" ++ Nat.repr k) ∧
      (∀ e : String, e ≠ "" → ∀ k,
        candidate_name stem (some e) k = stem ++ "_" ++ Nat.repr k ++ "." ++ e)) ∧
    (∀ (ex : String → Bool) (dir name : String) (j : ℕ),
      1 ≤ j → j ≤ MAX_FILENAME_ATTEMPTS - 1 →
      ex (dir ++ "/" ++ name) = true →
      (∀ i, 1 ≤ i → i < j →
        ex (dir ++ "/" ++ candidate_name (gufStem name) (gufExt name) i) = true) →
      ex (dir ++ "/" ++ candidate_name (gufStem name) (gufExt name) j) = false →
      get_unique_filename ex dir name =
        .ok (dir ++ "/" ++ candidate_name (gufStem name) (gufExt name) j)) ∧
    (∀ (ex : String → Bool) (dir name : String),
      ex (dir ++ "/" ++ name) = true →
      (∀ i, 1 ≤ i → i ≤ MAX_FILENAME_ATTEMPTS - 1 →
        ex (dir ++ "/" ++ candidate_name (gufStem name) (gufExt name) i) = true) →
      get_unique_filename ex dir name = .error ()) ∧
    (∀ (env : Env) (dateDir : String) (st : MState) (src : String),
      (copy_one_file env dateDir st src).2 = none →
      (copy_one_file env dateDir st src).1.errors.length = st.errors.length + 1) ∧
    (∀ (env : Env) (dateDir : String) (files : List String) (st : MState),
      (copy_bucket_files env dateDir st files).2.length +
          (copy_bucket_files env dateDir st files).1.errors.length =
        files.length + st.errors.length) := by
  refine ⟨?_, ?_, ?_, ?_, ?_⟩
  · intro stem hs
    exact ⟨fun k => (candidate_name_shape stem hs k).1,
      fun e he k => (candidate_name_shape stem hs k).2 e he⟩
  · intro ex dir name j h1 h2 hex hall hj
    rw [get_unique_filename]
    exact unique_from_finds ex dir (gufStem name) (gufExt name) (MAX_FILENAME_ATTEMPTS - 1)
      1 (dir ++ "/" ++ name) j h1
      (by simp [MAX_FILENAME_ATTEMPTS] at h2 ⊢; omega) hex hall hj
  · intro ex dir name hex hall
    rw [get_unique_filename]
    exact unique_from_exhausts ex dir (gufStem name) (gufExt name) (MAX_FILENAME_ATTEMPTS - 1)
      1 (dir ++ "/" ++ name) (by simp [MAX_FILENAME_ATTEMPTS]) hex hall
  · intro env dateDir st src hnone
    exact (copy_one_file_spec env dateDir st src).2.2.2 (by simp [hnone])
  · intro env dateDir files st
    exact (copy_bucket_files_spec env dateDir files st).2.2

/-- C2 (witness): the amended claim instantiated on `test.txt` (the
repository's own unit-test scenario): the first collision yields
`test_1.txt`. -/
theorem unique_filename_monotonic_bounded_witness :
    candidate_name "test" (some "txt") 1 = "test" ++ "_" ++ Nat.repr 1 ++ "." ++ "txt" ∧
    get_unique_filename (fun p => p == "d/test.txt") "d" "test.txt" =
      .ok ("d" ++ "/" ++ candidate_name (gufStem "test.txt") (gufExt "test.txt") 1) := by
  constructor
  · exact (unique_filename_monotonic_bounded.1 "test" (by decide)).2 "txt" (by decide) 1
  · apply unique_filename_monotonic_bounded.2.1
    · decide
    · decide
    · decide
    · intro i hi1 hi2
      omega
    · decide

/-- C3 (confirmed): file materialization never overwrites an existing
file — every destination actually written by the copy loop (absent
external interference, which the model excludes by construction) is
distinct from every initially existing path. -/
theorem materialization_never_overwrites (env : Env)
    (organized : List (String × List String)) (targetBase : String) (src dst : String)
    (hmem : Eff.fileCopy src dst ∈
      (copy_files_to_target env organized targetBase ⟨env.fs0, [], []⟩).1.trace) :
    dst ∉ env.fs0 := by
  obtain ⟨-, ⟨app, htr, hfr⟩⟩ :=
    copy_files_to_target_fresh env organized targetBase ⟨env.fs0, [], []⟩
  rw [htr] at hmem
  simp only [List.nil_append] at hmem
  exact hfr src dst hmem

/-- Environment whose target tree already holds `a.jpg` for 2023-05-01. -/
def envC3 : Env := mkEnv (.ok ([], [])) (.ok ()) ["t/2023/05/01/a.jpg"]

/-- C3 (witness): copying `s/a.jpg` onto an occupied destination writes
the renamed `a_1.jpg`, which is not among the pre-existing files. -/
theorem materialization_never_overwrites_witness :
    Eff.fileCopy "s/a.jpg" "t/2023/05/01/a_1.jpg" ∈
      (copy_files_to_target envC3 [("2023-05-01", ["s/a.jpg"])] "t"
        ⟨envC3.fs0, [], []⟩).1.trace ∧
    "t/2023/05/01/a_1.jpg" ∉ envC3.fs0 := by
  constructor
  · decide
  · exact materialization_never_overwrites envC3 [("2023-05-01", ["s/a.jpg"])] "t"
      "s/a.jpg" "t/2023/05/01/a_1.jpg" (by decide)

/-- C4 (confirmed): with `--copy` set and `--target-path` absent, the
organize command fails with an `InvalidInput` validation error and its
effect trace is empty — no engine call, no export, no filesystem
mutation — regardless of the environment (hence regardless of any scan
result). -/
theorem copy_without_target_fails_before_engine (env : Env) (args : OrganizeArgs)
    (hc : args.copy = true) (ht : args.targetPath = none) :
    (∃ e, (handle_organize env args).1 = .error (.invalidInput e)) ∧
    (handle_organize env args).2 = [] := by
  obtain ⟨e, hv⟩ := validate_organize_args_copy_no_target env args hc ht
  rw [handle_organize_validation_error env args e hv]
  exact ⟨⟨e, rfl⟩, rfl⟩

/-- Organize invocation with `--copy` but no `--target-path`. -/
def argsC4 : OrganizeArgs := ⟨"s", false, none, none, .csv, none, true⟩

/-- Environment whose engine would even return files (never reached). -/
def envC4 : Env := mkEnv (.ok ([("2023-05-01", ["s/a.jpg"])], [])) (.ok ()) []

/-- C4 (witness): the theorem instantiated at a concrete invocation. -/
theorem copy_without_target_fails_before_engine_witness :
    (∃ e, (handle_organize envC4 argsC4).1 = .error (.invalidInput e)) ∧
    (handle_organize envC4 argsC4).2 = [] :=
  copy_without_target_fails_before_engine envC4 argsC4 rfl rfl

/-- C5 (confirmed): a date key that does not split into exactly three
components is soft-skipped: the bucket mutates nothing (no directory
creation, no copies, no recorded error) and contributes an empty entry;
a key that does split is processed normally — its date directory creation
is attempted and, when it succeeds, every file of the bucket is either
copied or contributes exactly one error. -/
theorem malformed_date_bucket_soft_skip (env : Env) (targetDir : String) (st : MState)
    (date : String) (files : List String) :
    (parse_date_string date = none →
      process_bucket env targetDir st date files = (st, some [])) ∧
    (∀ y m d, parse_date_string date = some (y, m, d) →
      Eff.mkdirAll (targetDir ++ "/" ++ y ++ "/" ++ m ++ "/" ++ d) ∈
        (process_bucket env targetDir st date files).1.trace ∧
      (env.mkdirOk (targetDir ++ "/" ++ y ++ "/" ++ m ++ "/" ++ d) = true →
        ∃ copied, (process_bucket env targetDir st date files).2 = some copied ∧
          copied.length + (process_bucket env targetDir st date files).1.errors.length =
            files.length + st.errors.length)) := by
  constructor
  · intro hp
    rw [process_bucket, hp]
  · intro y m d hp
    rw [process_bucket, hp]
    dsimp only
    by_cases hmk : env.mkdirOk (targetDir ++ "/" ++ y ++ "/" ++ m ++ "/" ++ d)
    · rw [if_pos hmk]
      constructor
      · obtain ⟨-, ⟨app, htr, -⟩, -⟩ :=
          copy_bucket_files_spec env (targetDir ++ "/" ++ y ++ "/" ++ m ++ "/" ++ d) files
            { st with trace :=
              st.trace ++ [Eff.mkdirAll (targetDir ++ "/" ++ y ++ "/" ++ m ++ "/" ++ d)] }
        rw [htr]
        simp
      · intro _
        obtain ⟨-, -, hacc⟩ :=
          copy_bucket_files_spec env (targetDir ++ "/" ++ y ++ "/" ++ m ++ "/" ++ d) files
            { st with trace :=
              st.trace ++ [Eff.mkdirAll (targetDir ++ "/" ++ y ++ "/" ++ m ++ "/" ++ d)] }
        exact ⟨_, rfl, hacc⟩
    · rw [if_neg hmk]
      refine ⟨by simp, ?_⟩
      intro habs
      exact absurd habs (by simpa using hmk)

/-- Environment for the materialization witnesses. -/
def envC5 : Env := mkEnv (.ok ([], [])) (.ok ()) []

/-- C5 (witness): the soft-skip theorem instantiated on a malformed key
(`20230501`, one component) and on the well-formed `2023-05-01`. -/
theorem malformed_date_bucket_soft_skip_witness :
    process_bucket envC5 "t" ⟨[], [], []⟩ "20230501" ["s/a.jpg"] = (⟨[], [], []⟩, some []) ∧
    Eff.mkdirAll ("t" ++ "/" ++ "2023" ++ "/" ++ "05" ++ "/" ++ "01") ∈
      (process_bucket envC5 "t" ⟨[], [], []⟩ "2023-05-01" ["s/a.jpg"]).1.trace := by
  constructor
  · exact (malformed_date_bucket_soft_skip envC5 "t" ⟨[], [], []⟩ "20230501" ["s/a.jpg"]).1 rfl
  · exact ((malformed_date_bucket_soft_skip envC5 "t" ⟨[], [], []⟩ "2023-05-01"
      ["s/a.jpg"]).2 "2023" "05" "01" rfl).1

/-- C6 (confirmed): `validate_similarity_threshold` accepts `t` iff
`0 <= t <= 1`; when a custom threshold outside the closed interval is
supplied, `validate_duplicates_args` fails (and fails specifically with
the threshold error whenever the directory check passes). -/
theorem threshold_accepted_iff_in_unit_interval :
    (∀ t : ℚ, validate_similarity_threshold t = .ok () ↔ 0 ≤ t ∧ t ≤ 1) ∧
    (∀ (env : Env) (args : DuplicatesArgs) (t : ℚ),
      args.threshold = some t → ¬(0 ≤ t ∧ t ≤ 1) →
      (∃ e, validate_duplicates_args env args = .error e) ∧
      (validate_directory env args.directory = .ok () →
        validate_duplicates_args env args = .error .badThreshold)) := by
  constructor
  · intro t
    rw [validate_similarity_threshold]
    by_cases h : 0 ≤ t ∧ t ≤ 1
    · simp [h]
    · simp [h]
  · intro env args t hth hout
    constructor
    · cases hv : validate_directory env args.directory with
      | error e =>
        refine ⟨e, ?_⟩
        rw [validate_duplicates_args, hv]
      | ok u =>
        refine ⟨.badThreshold, ?_⟩
        rw [validate_duplicates_args, hv]
        dsimp only
        rw [hth]
        dsimp only
        rw [validate_similarity_threshold, if_pos hout]
    · intro hdir
      rw [validate_duplicates_args, hdir]
      dsimp only
      rw [hth]
      dsimp only
      rw [validate_similarity_threshold, if_pos hout]

/-- Duplicates invocation with an out-of-range custom threshold. -/
def argsC6 : DuplicatesArgs := ⟨"s", false, some 2, none, none, .json, .sizeFiltered⟩

/-- C6 (witness): `1/2` is accepted; a threshold of `2` makes the
duplicates validation fail. -/
theorem threshold_accepted_iff_in_unit_interval_witness :
    validate_similarity_threshold (1 / 2 : ℚ) = .ok () ∧
    (∃ e, validate_duplicates_args envC5 argsC6 = .error e) := by
  constructor
  · exact (threshold_accepted_iff_in_unit_interval.1 (1 / 2)).mpr (by norm_num)
  · exact (threshold_accepted_iff_in_unit_interval.2 envC5 argsC6 2 rfl (by norm_num)).1

/-- C7 (confirmed): in the duplicates export document the group ids
`group_1, group_2, ...` are pairwise distinct; the records carrying a
group's id are exactly that group's block, whose `position_in_group`
values are the dense sequence `1..group_size` in order and whose
`group_size` equals the number of files in the group; and the document
holds exactly one leaf record per file (its length is the sum of the
group sizes). -/
theorem duplicates_export_invariants (env : Env) (groups : List (List String)) (thr : ℚ) :
    ((mk_export_groups groups thr).map (fun g => g.group_id)).Nodup ∧
    (∀ g ∈ mk_export_groups groups thr,
      (export_data_duplicates env (mk_export_groups groups thr)).filter
          (fun r => r.group_id == g.group_id) = duplicate_records_of_group env g ∧
      (duplicate_records_of_group env g).map (fun r => r.position_in_group) =
        List.range' 1 g.files.length ∧
      (duplicate_records_of_group env g).length = g.files.length ∧
      ∀ r ∈ duplicate_records_of_group env g, r.group_size = g.files.length) ∧
    (export_data_duplicates env (mk_export_groups groups thr)).length =
      (groups.map List.length).sum := by
  refine ⟨mk_export_groups_ids_nodup groups thr, ?_,
    export_data_duplicates_length env groups thr⟩
  intro g hg
  exact ⟨records_filter_block env (mk_export_groups groups thr) g hg
      (mk_export_groups_ids_nodup groups thr),
    records_of_group_positions env g, records_of_group_length env g,
    fun r hr => (records_of_group_fields env g r hr).2.1⟩

/-- First export group of the two-group witness document. -/
def groupC7 : DuplicateGroup := ⟨"group_" ++ Nat.repr 1, ["a", "b"], 1⟩

/-- C7 (witness): the invariants instantiated on the concrete document
with groups `["a", "b"]` and `["c"]`. -/
theorem duplicates_export_invariants_witness :
    ((mk_export_groups [["a", "b"], ["c"]] 1).map (fun g => g.group_id)).Nodup ∧
    (export_data_duplicates envC5 (mk_export_groups [["a", "b"], ["c"]] 1)).filter
        (fun r => r.group_id == groupC7.group_id) =
      duplicate_records_of_group envC5 groupC7 ∧
    (duplicate_records_of_group envC5 groupC7).map (fun r => r.position_in_group) =
      List.range' 1 groupC7.files.length ∧
    (export_data_duplicates envC5 (mk_export_groups [["a", "b"], ["c"]] 1)).length =
      ([["a", "b"], ["c"]].map List.length).sum := by
  have h := duplicates_export_invariants envC5 [["a", "b"], ["c"]] 1
  have hmem : groupC7 ∈ mk_export_groups [["a", "b"], ["c"]] 1 := by decide
  exact ⟨h.1, (h.2.1 groupC7 hmem).1, (h.2.1 groupC7 hmem).2.1, h.2.2⟩

/-- C8 (confirmed): the monitor loop exits at the first loop test that
observes `complete = true`: started at tick 0 with the first true
observation at tick `j`, its rendering trace is exactly one progress line
per tick `0..j-1` followed by a single final completed line (so nothing is
rendered after completion is observed); and the organize orchestrator
joins the monitor before presenting results — in every effect trace, any
presentation is preceded by the monitor join. -/
theorem monitor_terminates_at_first_complete :
    (∀ (obs : ℕ → Bool) (j fuel : ℕ), obs j = true → (∀ i, i < j → obs i = false) →
      j < fuel →
      monitor_loop obs fuel 0 =
        some (((List.range j).map MEvent.progress) ++ [MEvent.completed])) ∧
    (∀ (env : Env) (args : OrganizeArgs) (l1 l2 : List Eff),
      (handle_organize env args).2 = l1 ++ Eff.present :: l2 → Eff.joinMonitor ∈ l1) := by
  constructor
  · intro obs j fuel hj hall hfuel
    have h := monitor_loop_first_true obs fuel 0 j (by omega) (by omega) hj
      (fun i _ h2 => hall i h2)
    rw [h, List.range_eq_range']
    simp
  · exact fun env args => join_before_present env args

/-- C8 (witness): completion first observed at tick 2 yields exactly two
progress lines and then the completed line. -/
theorem monitor_terminates_at_first_complete_witness :
    monitor_loop (fun k => decide (2 ≤ k)) 4 0 =
      some (((List.range 2).map MEvent.progress) ++ [MEvent.completed]) :=
  monitor_terminates_at_first_complete.1 (fun k => decide (2 ≤ k)) 2 4 (by decide)
    (by decide) (by decide)

/-- C9 (confirmed): every record of a duplicates export document carries
as its `similarity` the single configured threshold stamped on all groups
by `display_duplicates_results`; no per-group computed score appears. -/
theorem similarity_is_configured_threshold (env : Env) (groups : List (List String))
    (thr : ℚ) :
    ∀ r ∈ export_data_duplicates env (mk_export_groups groups thr), r.similarity = thr := by
  intro r hr
  rw [export_data_duplicates, List.mem_flatMap] at hr
  obtain ⟨g, hg, hrg⟩ := hr
  have hsim := (records_of_group_fields env g r hrg).2.2
  rw [mk_export_groups] at hg
  obtain ⟨⟨i, l⟩, hmem, rfl⟩ := List.mem_map.mp hg
  exact hsim

/-- Leading record of the witness document for the similarity claim. -/
def recC9 : DuplicateFileRecord := ⟨"a", "group_1", 1, 2, 1, 0, ""⟩

/-- C9 (witness): in the document over one group `["a", "b"]` with
threshold `1`, the first record's similarity is the threshold `1`. -/
theorem similarity_is_configured_threshold_witness : recC9.similarity = 1 :=
  similarity_is_configured_threshold envC5 [["a", "b"]] 1 recC9 (by decide)

/-- C10 (confirmed): when validation passes and the engine returns an
empty map and an empty error list, `handle_organize` succeeds immediately:
its trace is exactly the engine call and monitor join — no export write,
no directory creation and no file copy happen even when `--export`,
`--copy` and `--target-path` were all supplied. -/
theorem empty_scan_short_circuits (env : Env) (args : OrganizeArgs)
    (hval : validate_organize_args env args = .ok ())
    (heng : env.engineResult = .ok ([], [])) :
    handle_organize env args = (.ok (), [Eff.engineCall, Eff.joinMonitor]) ∧
    Eff.exportWrite ∉ (handle_organize env args).2 ∧
    (∀ d, Eff.mkdirAll d ∉ (handle_organize env args).2) ∧
    (∀ s d, Eff.fileCopy s d ∉ (handle_organize env args).2) := by
  have h := handle_organize_empty env args hval heng
  rw [h]
  refine ⟨rfl, by decide, ?_, ?_⟩
  · intro d
    simp
  · intro s d
    simp

/-- Environment with an empty engine result. -/
def envC10 : Env := mkEnv (.ok ([], [])) (.ok ()) []

/-- Organize invocation with export, copy and target all requested. -/
def argsC10 : OrganizeArgs := ⟨"s", false, none, some "out.json", .json, some "t", true⟩

/-- C10 (witness): the empty-scan theorem instantiated at a concrete
invocation that requested both export and copy. -/
theorem empty_scan_short_circuits_witness :
    handle_organize envC10 argsC10 = (.ok (), [Eff.engineCall, Eff.joinMonitor]) ∧
    argsC10.copy = true ∧ argsC10.exportPath = some "out.json" ∧
    argsC10.targetPath = some "t" :=
  ⟨(empty_scan_short_circuits envC10 argsC10 rfl rfl).1, rfl, rfl, rfl⟩
